import Mathlib

/-!
Verification of the document-context chat pipeline
(`src/services/fileService.ts` and `src/services/openaiService.ts`).

Strings are modelled as `List Char`. JavaScript string primitives used by the
source (`split(/\s+/)`, `split('\n')`, `trim`, `substring`, `endsWith`) are
embedded as executable Lean functions with JavaScript semantics; file-system
reads, UUID generation and the wall clock are passed in as explicit arguments.
-/

namespace Spec2Proof

/-- JavaScript whitespace class (the characters of `\s` that can occur in the
pipeline's text: space, tab, line feed, vertical tab, form feed, carriage
return). Used by both `split(/\s+/)` and `String.prototype.trim`. -/
def isWs (c : Char) : Bool :=
  c == ' ' || c == '\t' || c == '\n' || c == '\x0b' || c == '\x0c' || c == '\r'

/-- JavaScript `String.prototype.trim`: drop whitespace from both ends. -/
def trim (l : List Char) : List Char :=
  ((l.dropWhile isWs).reverse.dropWhile isWs).reverse

/-- Worker for `splitWs`. `inWs` records whether the previous character was
part of a whitespace run; `cur` holds the current word, reversed. -/
def splitWsAux (inWs : Bool) (cur : List Char) : List Char → List (List Char)
  | [] => [cur.reverse]
  | c :: rest =>
    if isWs c then
      if inWs then splitWsAux true [] rest
      else cur.reverse :: splitWsAux true [] rest
    else splitWsAux false (c :: cur) rest

/-- JavaScript `text.split(/\s+/)`: split on maximal whitespace runs. A leading
run contributes an initial empty piece and a trailing run a final empty piece;
the empty string yields `[[]]`, exactly as in JavaScript. -/
def splitWs (s : List Char) : List (List Char) :=
  splitWsAux false [] s

/-- JavaScript `text.split(sep)` for a single-character separator. -/
def splitOnChar (sep : Char) : List Char → List (List Char)
  | [] => [[]]
  | c :: rest =>
    if c == sep then [] :: splitOnChar sep rest
    else
      match splitOnChar sep rest with
      | [] => [[c]]
      | w :: ws => (c :: w) :: ws

/-- `fileService.chunkText`, the running chunk update in the `else` branch:
`currentChunk += (currentChunk ? ' ' : '') + word`. -/
def joinWord (cur w : List Char) : List Char :=
  if cur.isEmpty then w else cur ++ ' ' :: w

/-- `fileService.chunkText`, the `for (const word of words)` loop together with
the final flush. `cur` is `currentChunk`. The overflow test compares
`(currentChunk + word).length` — without the joining space — against
`chunkSize`; a flushed chunk is pushed trimmed, and `currentChunk` restarts
from the word that did not fit. -/
def chunkLoop (chunkSize : Nat) : List (List Char) → List Char → List (List Char)
  | [], cur => if cur.isEmpty then [] else [trim cur]
  | w :: ws, cur =>
    if chunkSize < (cur ++ w).length then
      if cur.isEmpty then chunkLoop chunkSize ws w
      else trim cur :: chunkLoop chunkSize ws (w)
    else chunkLoop chunkSize ws (joinWord cur w)

/-- `fileService.chunkText(text, chunkSize)`: split on whitespace runs, then
greedily pack words into chunks. -/
def chunkText (text : List Char) (chunkSize : Nat) : List (List Char) :=
  chunkLoop chunkSize (splitWs text) []

/-- The `lines` local of `fileService.generateSummary`:
`text.split('\n').filter((line) => line.trim())`. -/
def summaryLines (text : List Char) : List (List Char) :=
  (splitOnChar '\n' text).filter (fun line => !(trim line).isEmpty)

/-- The `summary` local of `fileService.generateSummary`:
`lines.slice(0, 5).join(' ')`. -/
def summaryJoined (text : List Char) : List Char :=
  List.intercalate [' '] ((summaryLines text).take 5)

/-- `fileService.generateSummary`: keep the non-blank lines, join the first 5
with single spaces, truncate via `substring(0, 200)` and append `'...'` when
the joined text was longer than 200 characters. -/
def generateSummary (text : List Char) : List Char :=
  (summaryJoined text).take 200 ++
    (if 200 < (summaryJoined text).length then ['.', '.', '.'] else [])

/-- `estimateTokenCount` (identical in `fileService` and `openaiService`):
`Math.ceil(text.length / 4)`. Over the naturals the ceiling of the exact
division by 4 is `(length + 3) / 4`; the agreement with the rational ceiling
`⌈length / 4⌉₊` is proved in `estimateTokenCount_eq_ceil`. -/
def estimateTokenCount (text : List Char) : Nat :=
  (text.length + 3) / 4

/-- The `UserFile` record of `src/types` as stored by the registry. Dates are
millisecond timestamps; extracted text and summary are character lists. -/
structure UserFile where
  id : String
  userId : String
  filename : String
  originalName : String
  mimeType : String
  uploadedAt : Nat
  extractedText : List Char
  summary : List Char
  tokenCount : Nat
  fileSize : Nat
deriving DecidableEq

/-- The module-level `filesStore : Map<string, UserFile[]>`: absent keys map to
`none`. -/
def Registry : Type := String → Option (List UserFile)

/-- `fileService.storeFile`. The file-system read (`extractText`) and the UUID
are impure, so the extracted text and the fresh id enter as arguments; the
function computes `tokenCount` from the extracted text, builds the record and
appends it to the owner's list (creating the list when absent, as the
`has`/`set`/`push` sequence does). Returns the stored record and the updated
store. -/
def storeFile (reg : Registry) (userId freshId : String)
    (originalName uploadPathBase mimeType : String) (uploadedAt : Nat)
    (extractedText : List Char) (summary : List Char) (fileSize : Nat) :
    UserFile × Registry :=
  let tokenCount := estimateTokenCount extractedText
  let userFile : UserFile :=
    { id := freshId, userId := userId, filename := uploadPathBase,
      originalName := originalName, mimeType := mimeType,
      uploadedAt := uploadedAt, extractedText := extractedText,
      summary := summary, tokenCount := tokenCount, fileSize := fileSize }
  (userFile, fun v =>
    if v = userId then some (((reg userId).getD []) ++ [userFile]) else reg v)

/-- `fileService.getUserFiles`: `filesStore.get(userId) || []`. -/
def getUserFiles (reg : Registry) (userId : String) : List UserFile :=
  (reg userId).getD []

/-- `fileService.getFile`: `userFiles?.find((f) => f.id === fileId)`. -/
def getFile (reg : Registry) (userId fileId : String) : Option UserFile :=
  (reg userId).bind (fun userFiles => userFiles.find? (fun f => f.id == fileId))

/-- JavaScript `Array.prototype.findIndex` returning `none` for `-1`. -/
def findIndex (p : UserFile → Bool) : List UserFile → Option Nat
  | [] => none
  | f :: fs => if p f then some 0 else (findIndex p fs).map (· + 1)

/-- `fileService.deleteFile`: `false` when the owner or the id is unknown,
otherwise `splice` out the first record whose id matches. The best-effort
`fs.unlinkSync` of the physical file is outside the registry state and not
modelled. Returns the boolean result and the updated store. -/
def deleteFile (reg : Registry) (userId fileId : String) : Bool × Registry :=
  match reg userId with
  | none => (false, reg)
  | some userFiles =>
    match findIndex (fun f => f.id == fileId) userFiles with
    | none => (false, reg)
    | some index =>
      (true, fun v =>
        if v = userId then some (userFiles.eraseIdx index) else reg v)

/-- The per-user value of the `requestCounts` map in
`openaiService.checkRateLimit`: `{ count, timestamp }`. -/
structure RateRecord where
  count : Nat
  timestamp : Int
deriving DecidableEq

/-- The `requestCounts : Map<string, {count, timestamp}>` argument. -/
def RateState : Type := String → Option RateRecord

/-- `openaiService.checkRateLimit`. The configured `limit` and `window`
(environment values, defaults 100 and 900000) and the clock reading
`Date.now()` enter as arguments. Returns the admission decision and the
updated map (the source mutates `userRecord.count` in place; here the update
is explicit). -/
def checkRateLimit (limit : Nat) (window : Int) (reqs : RateState)
    (userId : String) (now : Int) : Bool × RateState :=
  match reqs userId with
  | none => (true, fun v => if v = userId then some ⟨1, now⟩ else reqs v)
  | some r =>
    if window < now - r.timestamp then
      (true, fun v => if v = userId then some ⟨1, now⟩ else reqs v)
    else if limit ≤ r.count then
      (false, reqs)
    else
      (true, fun v =>
        if v = userId then some ⟨r.count + 1, r.timestamp⟩ else reqs v)

/-- JavaScript `String.prototype.endsWith` on the underlying characters. -/
def endsWith (s suffix : String) : Bool :=
  List.isSuffixOf suffix.data s.data

/-- The three extraction handlers `fileService.extractText` can dispatch to. -/
inductive ExtractRoute
  | csv
  | docx
  | txt
deriving DecidableEq

/-- `fileService.extractText`, the dispatch cascade. The handlers themselves
read the file system, so the model returns which handler is chosen;
`Except.error` is the thrown `Unsupported file type` error. In the first test
`&&` binds tighter than `||`, exactly as in the source. -/
def extractText (filePath mimeType : String) : Except String ExtractRoute :=
  if mimeType == "text/csv" || (mimeType == "text/plain" && endsWith filePath ".csv") then
    Except.ok ExtractRoute.csv
  else if mimeType == "application/vnd.openxmlformats-officedocument.wordprocessingml.document"
      || endsWith filePath ".docx" then
    Except.ok ExtractRoute.docx
  else if mimeType == "text/plain" || endsWith filePath ".txt" then
    Except.ok ExtractRoute.txt
  else
    Except.error ("Unsupported file type: " ++ mimeType)

deriving instance DecidableEq for Except

/-- The apostrophe character; the source's system-prompt template contains
one. -/
def apostrophe : Char := Char.ofNat 39

/-- `openaiService.buildFileContext`. `toLocaleDateString` depends on the
process locale, so the date rendering enters as the argument `fmtDate`. -/
def buildFileContext (fmtDate : Nat → List Char) (userFiles : List UserFile) :
    List Char :=
  if userFiles.isEmpty then "No files have been uploaded yet.".data
  else
    let fileDescriptions :=
      List.intercalate "\n".data (userFiles.map (fun file =>
        "\nFile: ".data ++ file.originalName.data ++ " (".data ++
          fmtDate file.uploadedAt ++ ")\nSummary: ".data ++ file.summary ++
          "\n---".data))
    "Available Documents:\n".data ++ fileDescriptions

/-- `openaiService.buildSystemPrompt`: the fixed instructional template around
the file context. -/
def buildSystemPrompt (fileContext : List Char) : List Char :=
  ("You are a helpful assistant that analyzes documents and answers questions " ++
    "based on their content. \n\n").data ++ fileContext ++
  ("\n\nPlease provide accurate answers based on the available documents. " ++
    "If information is not available in the documents, clearly state that. " ++
    "Always cite which file(s) you").data ++ [apostrophe] ++
  "re referencing when providing information.".data

/-- What one call to `client.chat.completions.create` yields when it does not
throw: `choices[0]?.message?.content` and `usage?.total_tokens`. -/
structure ProviderResponse where
  content : Option (List Char)
  usage : Option Nat
deriving DecidableEq

/-- One attempt against the provider: a response, or a thrown error with its
message. The provider stub maps the attempt number (0-based) to an outcome. -/
inductive ProviderResult
  | ok (r : ProviderResponse)
  | err (e : String)
deriving DecidableEq

/-- Outcome of `openaiService.chat`: the token-ceiling rejection thrown before
any network call, a successful return value, or the final error after all
retries (`failure (some e)` models `LLMCallFailedError` wrapping the last
underlying error message `e`; `failure none` is the degenerate zero-attempt
case that cannot arise from `MAX_RETRIES = 3`). -/
inductive ChatResult
  | tokenLimit (estimatedTokens maxTokensPerRequest : Nat)
  | success (response : List Char) (tokensUsed : Nat) (filesReferenced : List String)
  | failure (lastError : Option String)
deriving DecidableEq

/-- `const MAX_RETRIES = 3`. -/
def MAX_RETRIES : Nat := 3

/-- `const RETRY_DELAY = 1000`. -/
def RETRY_DELAY : Nat := 1000

/-- Message of the error thrown when `choices[0]?.message?.content` is absent
or empty (`if (!content) throw ...`). -/
def noContentMsg : String := "No response content from OpenAI"

/-- The retry loop of `openaiService.chat` (`for (attempt = 0; attempt <
MAX_RETRIES; attempt++)`), run with `rem` attempts remaining and `attempt` the
0-based attempt number. Besides the `ChatResult` it returns the number of
provider calls made and the list of back-off delays awaited, in milliseconds
(`RETRY_DELAY * (attempt + 1)`, awaited only when `attempt < MAX_RETRIES - 1`,
i.e. when `rem ≠ 0` after this attempt). An absent or empty `content` throws
inside the `try`, so it is a failed attempt; on success `tokensUsed` is
`response.usage?.total_tokens || estimatedTokens`, where JavaScript `||` also
replaces a reported `0` by the estimate. -/
def attemptLoop (provider : Nat → ProviderResult) (est : Nat)
    (fr : List String) : Nat → Nat → ChatResult × Nat × List Nat
  | 0, _ => (ChatResult.failure none, 0, [])
  | rem + 1, attempt =>
    let failWith := fun (e : String) =>
      if rem = 0 then (ChatResult.failure (some e), 1, ([] : List Nat))
      else
        let next := attemptLoop provider est fr rem (attempt + 1)
        (next.1, next.2.1 + 1, RETRY_DELAY * (attempt + 1) :: next.2.2)
    match provider attempt with
    | ProviderResult.err e => failWith e
    | ProviderResult.ok r =>
      match r.content with
      | none => failWith noContentMsg
      | some c =>
        if c.isEmpty then failWith noContentMsg
        else
          let tokensUsed :=
            match r.usage with
            | some n => if n = 0 then est else n
            | none => est
          (ChatResult.success c tokensUsed fr, 1, [])

/-- The token estimate `openaiService.chat` validates:
`estimateTokenCount(systemPrompt + finalPrompt)` with
`finalPrompt = fileContext + "\n\nUser Query: " + prompt`. -/
def chatEstimate (fmtDate : Nat → List Char) (prompt : List Char)
    (userFiles : List UserFile) : Nat :=
  let fileContext := buildFileContext fmtDate userFiles
  let systemPrompt := buildSystemPrompt fileContext
  let finalPrompt := fileContext ++ "\n\nUser Query: ".data ++ prompt
  estimateTokenCount (systemPrompt ++ finalPrompt)

/-- `openaiService.chat`, credential assumed configured (`getClient`
succeeded). `maxTokensPerRequest` is the `MAX_TOKENS_PER_REQUEST` environment
value (default 4000); `provider` abstracts the network; the `maxTokens` and
`temperature` arguments of the source are forwarded verbatim to the provider
and play no role in the modelled control flow. Returns the outcome, the
number of provider calls made, and the delays awaited. -/
def chat (maxTokensPerRequest : Nat) (fmtDate : Nat → List Char)
    (provider : Nat → ProviderResult) (prompt : List Char)
    (userFiles : List UserFile) : ChatResult × Nat × List Nat :=
  let filesReferenced := userFiles.map (fun f => f.originalName)
  let estimatedTokens := chatEstimate fmtDate prompt userFiles
  if maxTokensPerRequest < estimatedTokens then
    (ChatResult.tokenLimit estimatedTokens maxTokensPerRequest, 0, [])
  else
    attemptLoop provider estimatedTokens filesReferenced MAX_RETRIES 0

/-- First dispatch test of `extractText`: MIME `text/csv`, or MIME
`text/plain` together with a `.csv` path suffix. -/
abbrev csvCond (filePath mimeType : String) : Prop :=
  mimeType = "text/csv" ∨ (mimeType = "text/plain" ∧ endsWith filePath ".csv" = true)

/-- Second dispatch test of `extractText`: the Word-processing MIME type or a
`.docx` path suffix. -/
abbrev docxCond (filePath mimeType : String) : Prop :=
  mimeType = "application/vnd.openxmlformats-officedocument.wordprocessingml.document" ∨
    endsWith filePath ".docx" = true

/-- Third dispatch test of `extractText`: MIME `text/plain` or a `.txt` path
suffix. -/
abbrev txtCond (filePath mimeType : String) : Prop :=
  mimeType = "text/plain" ∨ endsWith filePath ".txt" = true

/-- The File Registry invariant: every stored record's `tokenCount` is the
estimate recomputed from its `extractedText`. -/
def tokenInv (reg : Registry) : Prop :=
  ∀ u fs, reg u = some fs → ∀ f ∈ fs, f.tokenCount = estimateTokenCount f.extractedText

/-- Attempt `i` against the provider fails: the call throws, or the response
carries no content or empty content (which `chat` turns into a thrown error
on that attempt). -/
def attemptFails (provider : Nat → ProviderResult) (i : Nat) : Prop :=
  (∃ e, provider i = ProviderResult.err e) ∨
    (∃ r, provider i = ProviderResult.ok r ∧
      (r.content = none ∨ r.content = some []))

/-- The error message a failed attempt leaves in `lastError`. -/
def attemptErrMsg : ProviderResult → String
  | ProviderResult.err e => e
  | ProviderResult.ok _ => noContentMsg

/-- Run `checkRateLimit` for one user at each clock reading in turn, starting
from `reqs`, and collect the admission decisions. -/
def runAdmits (limit : Nat) (window : Int) (userId : String) (reqs : RateState) :
    List Int → List Bool
  | [] => []
  | t :: ts =>
    let step := checkRateLimit limit window reqs userId t
    step.1 :: runAdmits limit window userId step.2 ts

/-- A concrete sample record for witnesses. -/
def demoFile (i owner : String) : UserFile :=
  { id := i, userId := owner, filename := "a.txt", originalName := "a.txt",
    mimeType := "text/plain", uploadedAt := 0, extractedText := "hello".data,
    summary := "hello".data, tokenCount := 2, fileSize := 5 }

/-- A concrete two-user store for witnesses. -/
def deleteFileDemoReg : Registry := fun v =>
  if v = "u" then some [demoFile "f1" "u"]
  else if v = "v" then some [demoFile "f2" "v"] else none

/-! ## Helper lemmas -/

theorem extractText_eq_ite (filePath mimeType : String) :
    extractText filePath mimeType =
      (if csvCond filePath mimeType then Except.ok ExtractRoute.csv
       else if docxCond filePath mimeType then Except.ok ExtractRoute.docx
       else if txtCond filePath mimeType then Except.ok ExtractRoute.txt
       else Except.error ("Unsupported file type: " ++ mimeType)) := by
  unfold extractText csvCond docxCond txtCond
  rcases Decidable.em (mimeType = "text/csv") with h1 | h1 <;>
    rcases Decidable.em (mimeType = "text/plain") with h2 | h2 <;>
    rcases Decidable.em (endsWith filePath ".csv" = true) with h3 | h3 <;>
    rcases Decidable.em
      (mimeType = "application/vnd.openxmlformats-officedocument.wordprocessingml.document")
      with h4 | h4 <;>
    rcases Decidable.em (endsWith filePath ".docx" = true) with h5 | h5 <;>
    rcases Decidable.em (endsWith filePath ".txt" = true) with h6 | h6 <;>
    simp_all

/-! ## C5: extractor dispatch -/

/-- Claim C5: `extractText` dispatches by first match in order — (1) MIME
`text/csv`, or `text/plain` with a `.csv` suffix, to the CSV handler; (2) the
Word-processing MIME or a `.docx` suffix to the DOCX handler; (3) `text/plain`
or a `.txt` suffix to the plain-text handler — and fails with the unsupported
file type error exactly when no rule matches, in particular for
`application/pdf` with no matching extension. -/
theorem extractText_dispatch_order (filePath mimeType : String) :
    (extractText filePath mimeType = Except.ok ExtractRoute.csv ↔
      csvCond filePath mimeType) ∧
    (extractText filePath mimeType = Except.ok ExtractRoute.docx ↔
      ¬csvCond filePath mimeType ∧ docxCond filePath mimeType) ∧
    (extractText filePath mimeType = Except.ok ExtractRoute.txt ↔
      ¬csvCond filePath mimeType ∧ ¬docxCond filePath mimeType ∧
        txtCond filePath mimeType) ∧
    (extractText filePath mimeType =
        Except.error ("Unsupported file type: " ++ mimeType) ↔
      ¬csvCond filePath mimeType ∧ ¬docxCond filePath mimeType ∧
        ¬txtCond filePath mimeType) ∧
    extractText "report.pdf" "application/pdf" =
      Except.error "Unsupported file type: application/pdf" := by
  by_cases h1 : csvCond filePath mimeType
  · simp +decide [extractText_eq_ite, h1]
  · by_cases h2 : docxCond filePath mimeType
    · simp +decide [extractText_eq_ite, h1, h2]
    · by_cases h3 : txtCond filePath mimeType
      · simp +decide [extractText_eq_ite, h1, h2, h3]
      · simp +decide [extractText_eq_ite, h1, h2, h3]

/-! ## C4: rate limiter -/

/-- Claim C4: a `checkRateLimit` call resets the record to `{count 1, now}`
and admits when no record exists or the window has expired
(`now - windowStart > windowDurationMs`); otherwise it rejects without
mutation when `count ≥ limit`, and increments and admits when `count < limit`.
Consequently, with `limit = 2` and a fixed window, three calls inside the
window admit, admit, reject, and a fourth call after the window elapses
admits again. -/
theorem checkRateLimit_behavior (limit : Nat) (window : Int) (reqs : RateState)
    (userId : String) (now : Int) :
    (reqs userId = none →
      checkRateLimit limit window reqs userId now =
        (true, fun v => if v = userId then some ⟨1, now⟩ else reqs v)) ∧
    (∀ r, reqs userId = some r →
      (window < now - r.timestamp →
        checkRateLimit limit window reqs userId now =
          (true, fun v => if v = userId then some ⟨1, now⟩ else reqs v)) ∧
      (¬window < now - r.timestamp → limit ≤ r.count →
        checkRateLimit limit window reqs userId now = (false, reqs)) ∧
      (¬window < now - r.timestamp → r.count < limit →
        checkRateLimit limit window reqs userId now =
          (true, fun v =>
            if v = userId then some ⟨r.count + 1, r.timestamp⟩ else reqs v))) ∧
    runAdmits 2 900000 "u" (fun _ => none) [0, 1, 2, 900002] =
      [true, true, false, true] := by
  refine ⟨fun hnone => ?_, fun r hr => ⟨fun hexp => ?_, fun hexp hfull => ?_,
    fun hexp havail => ?_⟩, by decide⟩
  · simp [checkRateLimit, hnone]
  · simp [checkRateLimit, hr, hexp]
  · simp [checkRateLimit, hr, hexp, hfull]
  · simp [checkRateLimit, hr, hexp, Nat.not_le.mpr havail]

/-- Witness for C4: the very first call for a fresh user admits and installs
`{count 1, windowStart now}`. -/
theorem checkRateLimit_behavior_witness :
    checkRateLimit 2 900000 (fun _ => none) "u" 5 =
      (true, fun v => if v = "u" then some ⟨1, 5⟩ else none) :=
  (checkRateLimit_behavior 2 900000 (fun _ => none) "u" 5).1 rfl

/-! ## C10: deleteFile frame conditions -/

theorem findIndex_decomp (p : UserFile → Bool) :
    ∀ (l : List UserFile) (i : Nat), findIndex p l = some i →
      ∃ pre x post, l = pre ++ x :: post ∧ pre.length = i ∧ p x = true ∧
        (∀ y ∈ pre, p y = false) ∧ l.eraseIdx i = pre ++ post := by
  intro l
  induction l with
  | nil => intro i h; simp [findIndex] at h
  | cons f fs ih =>
    intro i h
    by_cases hf : p f
    · refine ⟨[], f, fs, by simp, ?_, hf, by simp, ?_⟩
      · simp [findIndex, hf] at h
        simp [h]
      · simp [findIndex, hf] at h
        subst h
        simp [List.eraseIdx]
    · simp [findIndex, hf] at h
      obtain ⟨j, hj, hji⟩ := h
      obtain ⟨pre, x, post, hl, hlen, hx, hpre, herase⟩ := ih j hj
      refine ⟨f :: pre, x, post, by simp [hl], by simp [hlen, hji], hx, ?_, ?_⟩
      · intro y hy
        rcases List.mem_cons.mp hy with hy | hy
        · subst hy; simpa using hf
        · exact hpre y hy
      · rw [← hji]
        simpa [List.eraseIdx] using herase

/-- Claim C10: `deleteFile u fileId` never changes another user's file list;
when it returns `true` it removes exactly the first record of `u` whose id is
`fileId`, keeping the other records in order; when it returns `false` the
whole store is unchanged. -/
theorem deleteFile_frame (reg : Registry) (u fileId : String) :
    (∀ v, v ≠ u → (deleteFile reg u fileId).2 v = reg v) ∧
    ((deleteFile reg u fileId).1 = false → (deleteFile reg u fileId).2 = reg) ∧
    ((deleteFile reg u fileId).1 = true →
      ∃ pre x post, reg u = some (pre ++ x :: post) ∧ x.id = fileId ∧
        (∀ y ∈ pre, y.id ≠ fileId) ∧
        (deleteFile reg u fileId).2 u = some (pre ++ post)) := by
  cases hru : reg u with
  | none =>
    refine ⟨fun v hv => by simp [deleteFile, hru],
      fun _ => by simp [deleteFile, hru], fun h => ?_⟩
    simp [deleteFile, hru] at h
  | some userFiles =>
    cases hidx : findIndex (fun f => f.id == fileId) userFiles with
    | none =>
      refine ⟨fun v hv => by simp [deleteFile, hru, hidx],
        fun _ => by simp [deleteFile, hru, hidx], fun h => ?_⟩
      simp [deleteFile, hru, hidx] at h
    | some index =>
      refine ⟨fun v hv => by simp [deleteFile, hru, hidx, hv],
        fun h => ?_, fun _ => ?_⟩
      · simp [deleteFile, hru, hidx] at h
      · obtain ⟨pre, x, post, hl, hlen, hx, hpre, herase⟩ :=
          findIndex_decomp (fun f => f.id == fileId) userFiles index hidx
        refine ⟨pre, x, post, by rw [hl], by simpa using hx,
          fun y hy => by simpa using hpre y hy, ?_⟩
        simp [deleteFile, hru, hidx, herase]

/-- Witness for C10: deleting the only file of `"u"` leaves `"v"` untouched,
and removes exactly that first matching record from `"u"`. -/
theorem deleteFile_frame_witness :
    (deleteFile deleteFileDemoReg "u" "f1").2 "v" = deleteFileDemoReg "v" ∧
    ∃ pre x post,
      deleteFileDemoReg "u" = some (pre ++ x :: post) ∧ x.id = "f1" ∧
      (∀ y ∈ pre, y.id ≠ "f1") ∧
      (deleteFile deleteFileDemoReg "u" "f1").2 "u" = some (pre ++ post) :=
  ⟨(deleteFile_frame deleteFileDemoReg "u" "f1").1 "v" (by decide),
    (deleteFile_frame deleteFileDemoReg "u" "f1").2.2 (by decide)⟩

/-! ## C2: token ceiling rejected before any provider call -/

/-- Claim C2: with the credential configured, whenever the 4-characters-per-
token estimate of system prompt plus final user prompt exceeds the configured
ceiling, `chat` fails at once with the token-limit error, making zero provider
calls and no delays. -/
theorem chat_token_ceiling (maxTokensPerRequest : Nat) (fmtDate : Nat → List Char)
    (provider : Nat → ProviderResult) (prompt : List Char) (userFiles : List UserFile)
    (h : maxTokensPerRequest < chatEstimate fmtDate prompt userFiles) :
    chat maxTokensPerRequest fmtDate provider prompt userFiles =
      (ChatResult.tokenLimit (chatEstimate fmtDate prompt userFiles)
        maxTokensPerRequest, 0, []) := by
  simp [chat, h]

set_option maxRecDepth 8000 in
/-- Witness for C2: a ceiling of 0 is always exceeded, and no provider call is
made even though the provider always throws. -/
theorem chat_token_ceiling_witness :
    chat 0 (fun _ => []) (fun _ => ProviderResult.err "boom") "hi".data [] =
      (ChatResult.tokenLimit (chatEstimate (fun _ => []) "hi".data []) 0, 0, []) :=
  chat_token_ceiling 0 (fun _ => []) (fun _ => ProviderResult.err "boom")
    "hi".data [] (by decide)

/-! ## C8: token estimate and registry invariant -/

theorem ceil_div_four (m : ℕ) : ⌈(m : ℚ) / 4⌉₊ = (m + 3) / 4 := by
  rcases Nat.eq_zero_or_pos ((m + 3) / 4) with h0 | hpos
  · have hm : m = 0 := by omega
    subst hm
    norm_num
  · refine le_antisymm ?_ ?_
    · rw [Nat.ceil_le, div_le_iff₀ (by norm_num : (0:ℚ) < 4)]
      have h4 : m ≤ ((m + 3) / 4) * 4 := by omega
      exact_mod_cast h4
    · have h1 : ((m + 3) / 4 - 1) < ⌈(m : ℚ) / 4⌉₊ := by
        rw [Nat.lt_ceil, lt_div_iff₀ (by norm_num : (0:ℚ) < 4)]
        have h4 : ((m + 3) / 4 - 1) * 4 < m := by omega
        exact_mod_cast h4
      omega

/-- Claim C8: `estimateTokenCount` is the ceiling of `length / 4` (0 on the
empty string), `storeFile` establishes `tokenCount =
estimateTokenCount extractedText` on the record it stores, and the registry
operations preserve that invariant for every held record. -/
theorem estimateTokenCount_registry_invariant :
    (∀ s : List Char, estimateTokenCount s = ⌈(s.length : ℚ) / 4⌉₊) ∧
    estimateTokenCount [] = 0 ∧
    (∀ reg userId freshId originalName uploadPathBase mimeType uploadedAt
        extractedText summary fileSize, tokenInv reg →
      (storeFile reg userId freshId originalName uploadPathBase mimeType
          uploadedAt extractedText summary fileSize).1.tokenCount =
        estimateTokenCount extractedText ∧
      tokenInv (storeFile reg userId freshId originalName uploadPathBase
          mimeType uploadedAt extractedText summary fileSize).2) ∧
    (∀ reg u fileId, tokenInv reg → tokenInv (deleteFile reg u fileId).2) ∧
    (∀ reg u, tokenInv reg →
      ∀ f ∈ getUserFiles reg u, f.tokenCount = estimateTokenCount f.extractedText) ∧
    (∀ reg u fileId f, tokenInv reg → getFile reg u fileId = some f →
      f.tokenCount = estimateTokenCount f.extractedText) := by
  refine ⟨fun s => (ceil_div_four s.length).symm, rfl, ?_, ?_, ?_, ?_⟩
  · intro reg userId freshId originalName uploadPathBase mimeType uploadedAt
      extractedText summary fileSize hinv
    refine ⟨rfl, ?_⟩
    intro u fs hfs f hf
    simp only [storeFile] at hfs
    by_cases hu : u = userId
    · subst hu
      rw [if_pos rfl] at hfs
      obtain rfl : ((reg u).getD []) ++ [_] = fs := Option.some.inj hfs
      rcases List.mem_append.mp hf with hf | hf
      · cases hreg : reg u with
        | none => rw [hreg] at hf; simp at hf
        | some old =>
          rw [hreg] at hf
          exact hinv u old hreg f hf
      · simp at hf
        subst hf
        rfl
    · rw [if_neg hu] at hfs
      exact hinv u fs hfs f hf
  · intro reg u fileId hinv
    cases hru : reg u with
    | none =>
      intro v fs hfs f hf
      simp [deleteFile, hru] at hfs
      exact hinv v fs hfs f hf
    | some userFiles =>
      cases hidx : findIndex (fun f => f.id == fileId) userFiles with
      | none =>
        intro v fs hfs f hf
        simp [deleteFile, hru, hidx] at hfs
        exact hinv v fs hfs f hf
      | some index =>
        intro v fs hfs f hf
        obtain ⟨pre, x, post, hl, hlen, hx, hpre, herase⟩ :=
          findIndex_decomp (fun f => f.id == fileId) userFiles index hidx
        simp [deleteFile, hru, hidx] at hfs
        by_cases hv : v = u
        · subst hv
          rw [if_pos rfl] at hfs
          obtain rfl : userFiles.eraseIdx index = fs := Option.some.inj hfs
          rw [herase] at hf
          refine hinv v userFiles hru f ?_
          rw [hl]
          rcases List.mem_append.mp hf with hf | hf
          · exact List.mem_append.mpr (Or.inl hf)
          · exact List.mem_append.mpr (Or.inr (List.mem_cons_of_mem x hf))
        · rw [if_neg hv] at hfs
          exact hinv v fs hfs f hf
  · intro reg u hinv f hf
    unfold getUserFiles at hf
    cases hru : reg u with
    | none => rw [hru] at hf; simp at hf
    | some fs =>
      rw [hru] at hf
      exact hinv u fs hru f hf
  · intro reg u fileId f hinv hget
    unfold getFile at hget
    cases hru : reg u with
    | none => rw [hru] at hget; simp at hget
    | some fs =>
      rw [hru] at hget
      exact hinv u fs hru f (List.mem_of_find?_eq_some hget)

/-- Witness for C8: storing a file into the empty registry establishes the
invariant, and listing returns records satisfying it. -/
theorem estimateTokenCount_registry_invariant_witness :
    tokenInv (storeFile (fun _ => none) "u" "id1" "a.txt" "a.txt" "text/plain"
      0 "hello".data "hello".data 5).2 :=
  (estimateTokenCount_registry_invariant.2.2.1 (fun _ => none) "u" "id1"
    "a.txt" "a.txt" "text/plain" 0 "hello".data "hello".data 5
    (by intro u fs h; simp at h)).2

/-! ## C3: bounded retries with linear backoff -/

theorem attemptLoop_fail_last (provider : Nat → ProviderResult) (est : Nat)
    (fr : List String) (attempt : Nat) (hf : attemptFails provider attempt) :
    attemptLoop provider est fr 1 attempt =
      (ChatResult.failure (some (attemptErrMsg (provider attempt))), 1, []) := by
  show attemptLoop provider est fr (0 + 1) attempt = _
  rcases hf with ⟨e, he⟩ | ⟨r, hr, hc⟩
  · simp [attemptLoop, he, attemptErrMsg]
  · rcases hc with hc | hc <;> simp [attemptLoop, hr, hc, attemptErrMsg]

theorem attemptLoop_fail_step (provider : Nat → ProviderResult) (est : Nat)
    (fr : List String) (rem attempt : Nat) (hrem : rem ≠ 0)
    (hf : attemptFails provider attempt) :
    attemptLoop provider est fr (rem + 1) attempt =
      ((attemptLoop provider est fr rem (attempt + 1)).1,
       (attemptLoop provider est fr rem (attempt + 1)).2.1 + 1,
       RETRY_DELAY * (attempt + 1) ::
         (attemptLoop provider est fr rem (attempt + 1)).2.2) := by
  rcases hf with ⟨e, he⟩ | ⟨r, hr, hc⟩
  · simp [attemptLoop, he, hrem]
  · rcases hc with hc | hc <;> simp [attemptLoop, hr, hc, hrem]

theorem attemptLoop_success (provider : Nat → ProviderResult) (est : Nat)
    (fr : List String) (rem attempt : Nat) (r : ProviderResponse) (c : List Char)
    (hp : provider attempt = ProviderResult.ok r) (hc : r.content = some c)
    (hne : c ≠ []) :
    attemptLoop provider est fr (rem + 1) attempt =
      (ChatResult.success c
        (match r.usage with
         | some n => if n = 0 then est else n
         | none => est) fr, 1, []) := by
  have hemp : c.isEmpty = false := by
    cases c with
    | nil => exact absurd rfl hne
    | cons a t => rfl
  simp [attemptLoop, hp, hc, hemp]

theorem chat_eq_attemptLoop (maxT : Nat) (fmtDate : Nat → List Char)
    (provider : Nat → ProviderResult) (prompt : List Char)
    (userFiles : List UserFile)
    (h : ¬maxT < chatEstimate fmtDate prompt userFiles) :
    chat maxT fmtDate provider prompt userFiles =
      attemptLoop provider (chatEstimate fmtDate prompt userFiles)
        (userFiles.map (fun f => f.originalName)) 3 0 := by
  simp [chat, h, MAX_RETRIES]

/-- Claim C3: below the ceiling, if every attempt fails (a thrown provider
error, or absent/empty generated text) `chat` makes exactly 3 provider calls,
waits 1000 ms and then 2000 ms between them, and ends with the retries-
exhausted failure wrapping the last attempt's error; if the provider fails
twice and then succeeds, `chat` makes exactly 3 calls, waits the same two
delays, and returns the successful result. -/
theorem chat_retry_behavior (maxT : Nat) (fmtDate : Nat → List Char)
    (provider : Nat → ProviderResult) (prompt : List Char)
    (userFiles : List UserFile)
    (hceil : ¬maxT < chatEstimate fmtDate prompt userFiles) :
    ((∀ i, i < 3 → attemptFails provider i) →
      chat maxT fmtDate provider prompt userFiles =
        (ChatResult.failure (some (attemptErrMsg (provider 2))), 3,
          [1000, 2000])) ∧
    (attemptFails provider 0 → attemptFails provider 1 →
      ∀ r c, provider 2 = ProviderResult.ok r → r.content = some c → c ≠ [] →
        ∃ tokensUsed, chat maxT fmtDate provider prompt userFiles =
          (ChatResult.success c tokensUsed
            (userFiles.map (fun f => f.originalName)), 3, [1000, 2000])) := by
  have hchat := chat_eq_attemptLoop maxT fmtDate provider prompt userFiles hceil
  constructor
  · intro hall
    have l2 := attemptLoop_fail_last provider (chatEstimate fmtDate prompt userFiles)
      (userFiles.map (fun f => f.originalName)) 2 (hall 2 (by norm_num))
    have l1 : attemptLoop provider (chatEstimate fmtDate prompt userFiles)
        (userFiles.map (fun f => f.originalName)) 2 1 =
        (ChatResult.failure (some (attemptErrMsg (provider 2))), 2, [2000]) := by
      conv_lhs => rw [show (2 : Nat) = 1 + 1 from rfl]
      rw [attemptLoop_fail_step provider _ _ 1 1 one_ne_zero (hall 1 (by norm_num))]
      norm_num [l2, RETRY_DELAY]
    have l0 : attemptLoop provider (chatEstimate fmtDate prompt userFiles)
        (userFiles.map (fun f => f.originalName)) 3 0 =
        (ChatResult.failure (some (attemptErrMsg (provider 2))), 3, [1000, 2000]) := by
      conv_lhs => rw [show (3 : Nat) = 2 + 1 from rfl]
      rw [attemptLoop_fail_step provider _ _ 2 0 (by norm_num) (hall 0 (by norm_num))]
      norm_num [l1, RETRY_DELAY]
    rw [hchat, l0]
  · intro h0 h1 r c hp hcont hne
    refine ⟨(match r.usage with
             | some n => if n = 0 then chatEstimate fmtDate prompt userFiles else n
             | none => chatEstimate fmtDate prompt userFiles), ?_⟩
    have l2 : attemptLoop provider (chatEstimate fmtDate prompt userFiles)
        (userFiles.map (fun f => f.originalName)) 1 2 =
        (ChatResult.success c
          (match r.usage with
           | some n => if n = 0 then chatEstimate fmtDate prompt userFiles else n
           | none => chatEstimate fmtDate prompt userFiles)
          (userFiles.map (fun f => f.originalName)), 1, []) := by
      conv_lhs => rw [show (1 : Nat) = 0 + 1 from rfl]
      exact attemptLoop_success provider _ _ 0 2 r c hp hcont hne
    have l1 : attemptLoop provider (chatEstimate fmtDate prompt userFiles)
        (userFiles.map (fun f => f.originalName)) 2 1 =
        (ChatResult.success c
          (match r.usage with
           | some n => if n = 0 then chatEstimate fmtDate prompt userFiles else n
           | none => chatEstimate fmtDate prompt userFiles)
          (userFiles.map (fun f => f.originalName)), 2, [2000]) := by
      conv_lhs => rw [show (2 : Nat) = 1 + 1 from rfl]
      rw [attemptLoop_fail_step provider _ _ 1 1 one_ne_zero h1]
      norm_num [l2, RETRY_DELAY]
    have l0 : attemptLoop provider (chatEstimate fmtDate prompt userFiles)
        (userFiles.map (fun f => f.originalName)) 3 0 =
        (ChatResult.success c
          (match r.usage with
           | some n => if n = 0 then chatEstimate fmtDate prompt userFiles else n
           | none => chatEstimate fmtDate prompt userFiles)
          (userFiles.map (fun f => f.originalName)), 3, [1000, 2000]) := by
      conv_lhs => rw [show (3 : Nat) = 2 + 1 from rfl]
      rw [attemptLoop_fail_step provider _ _ 2 0 (by norm_num) h0]
      norm_num [l1, RETRY_DELAY]
    rw [hchat, l0]

set_option maxRecDepth 8000 in
/-- Witness for C3: an always-throwing stub yields 3 calls, delays 1000 ms
and 2000 ms, and the final wrapped failure; a fail-twice-then-succeed stub
yields 3 calls and the success. -/
theorem chat_retry_behavior_witness :
    chat 4000 (fun _ => []) (fun _ => ProviderResult.err "boom") "hi".data [] =
      (ChatResult.failure (some "boom"), 3, [1000, 2000]) ∧
    ∃ tokensUsed, chat 4000 (fun _ => [])
        (fun attempt =>
          if attempt < 2 then ProviderResult.err "boom"
          else ProviderResult.ok ⟨some "ok".data, some 42⟩) "hi".data [] =
      (ChatResult.success "ok".data tokensUsed [], 3, [1000, 2000]) :=
  ⟨(chat_retry_behavior 4000 (fun _ => []) (fun _ => ProviderResult.err "boom")
      "hi".data [] (by decide)).1 (fun i _ => Or.inl ⟨"boom", rfl⟩),
    (chat_retry_behavior 4000 (fun _ => [])
      (fun attempt =>
        if attempt < 2 then ProviderResult.err "boom"
        else ProviderResult.ok ⟨some "ok".data, some 42⟩) "hi".data []
      (by decide)).2 (Or.inl ⟨"boom", rfl⟩) (Or.inl ⟨"boom", rfl⟩)
      ⟨some "ok".data, some 42⟩ "ok".data rfl rfl (by decide)⟩

/-! ## C6: tokensUsed and the provider-reported usage -/

theorem attemptLoop_success_inv (provider : Nat → ProviderResult) (est : Nat)
    (fr : List String) (c : List Char) (tu : Nat) (fr2 : List String) :
    ∀ rem attempt,
      (attemptLoop provider est fr rem attempt).1 = ChatResult.success c tu fr2 →
      ∃ i r, provider i = ProviderResult.ok r ∧ r.content = some c ∧
        (∀ m, r.usage = some m → m ≠ 0 → tu = m) ∧
        ((r.usage = none ∨ r.usage = some 0) → tu = est) := by
  intro rem
  induction rem with
  | zero => intro attempt h; simp [attemptLoop] at h
  | succ rem ih =>
    intro attempt h
    cases hp : provider attempt with
    | err e =>
      by_cases hrem : rem = 0
      · subst hrem; simp [attemptLoop, hp] at h
      · simp only [attemptLoop, hp, if_neg hrem] at h
        exact ih (attempt + 1) h
    | ok r =>
      cases hc : r.content with
      | none =>
        by_cases hrem : rem = 0
        · subst hrem; simp [attemptLoop, hp, hc] at h
        · simp only [attemptLoop, hp, hc, if_neg hrem] at h
          exact ih (attempt + 1) h
      | some c' =>
        cases hc' : c'.isEmpty with
        | true =>
          by_cases hrem : rem = 0
          · subst hrem; simp [attemptLoop, hp, hc, hc'] at h
          · simp only [attemptLoop, hp, hc, hc', if_neg hrem, if_true] at h
            exact ih (attempt + 1) h
        | false =>
          simp only [attemptLoop, hp, hc, hc'] at h
          rw [if_neg Bool.false_ne_true] at h
          simp only [ChatResult.success.injEq] at h
          obtain ⟨h1, h2, h3⟩ := h
          refine ⟨attempt, r, hp, ?_, ?_, ?_⟩
          · rw [hc, h1]
          · intro m hm hm0
            rw [← h2, hm]
            simp [hm0]
          · intro hu
            rcases hu with hu | hu
            · rw [← h2, hu]
            · rw [← h2, hu]
              simp

/-- Claim C6 (amended): on a successful `chat` call the returned `tokensUsed`
is the provider-reported total whenever that total is nonzero, and is the
local 4-characters-per-token estimate when the provider omits the usage field
or reports 0 (JavaScript `||` treats a reported 0 like an absent value). -/
theorem chat_tokensUsed_amended (maxT : Nat) (fmtDate : Nat → List Char)
    (provider : Nat → ProviderResult) (prompt : List Char)
    (userFiles : List UserFile) (c : List Char) (tu : Nat) (fr2 : List String)
    (h : (chat maxT fmtDate provider prompt userFiles).1 =
      ChatResult.success c tu fr2) :
    ∃ i r, provider i = ProviderResult.ok r ∧ r.content = some c ∧
      (∀ m, r.usage = some m → m ≠ 0 → tu = m) ∧
      ((r.usage = none ∨ r.usage = some 0) →
        tu = chatEstimate fmtDate prompt userFiles) := by
  by_cases hceil : maxT < chatEstimate fmtDate prompt userFiles
  · simp [chat, hceil] at h
  · rw [chat_eq_attemptLoop maxT fmtDate provider prompt userFiles hceil] at h
    exact attemptLoop_success_inv provider _ _ c tu fr2 3 0 h

set_option maxRecDepth 8000 in
/-- Witness for C6 (amended): a provider that reports 42 used tokens yields
`tokensUsed = 42`. -/
theorem chat_tokensUsed_amended_witness :
    ∃ i r, (fun _ : Nat => ProviderResult.ok
        (⟨some "ok".data, some 42⟩ : ProviderResponse)) i = ProviderResult.ok r ∧
      r.content = some "ok".data ∧
      (∀ m, r.usage = some m → m ≠ 0 → 42 = m) ∧
      ((r.usage = none ∨ r.usage = some 0) →
        42 = chatEstimate (fun _ => []) "hi".data []) :=
  chat_tokensUsed_amended 4000 (fun _ => [])
    (fun _ => ProviderResult.ok ⟨some "ok".data, some 42⟩) "hi".data []
    "ok".data 42 [] (by decide)

set_option maxRecDepth 8000 in
/-- Counterexample to C6 as stated: the provider reports a total usage of 0,
yet `chat` returns the nonzero local estimate as `tokensUsed` — a reported 0
is not honored. -/
theorem chat_tokensUsed_counterexample :
    chat 4000 (fun _ => [])
        (fun _ => ProviderResult.ok ⟨some "ok".data, some 0⟩) "hi".data [] =
      (ChatResult.success "ok".data
        (chatEstimate (fun _ => []) "hi".data []) [], 1, []) ∧
    chatEstimate (fun _ => []) "hi".data [] ≠ 0 := by
  exact ⟨by decide, by decide⟩

/-! ## Text helper lemmas for the chunker and summarizer -/

theorem dropWhile_eq_self_of_forall (p : Char → Bool) (l : List Char)
    (h : ∀ c ∈ l, p c = false) : l.dropWhile p = l := by
  cases l with
  | nil => rfl
  | cons a t => simp [List.dropWhile_cons, h a (List.mem_cons_self a t)]

theorem trim_length_le (l : List Char) : (trim l).length ≤ l.length := by
  unfold trim
  have h1 : ((l.dropWhile isWs).reverse.dropWhile isWs).length ≤
      (l.dropWhile isWs).reverse.length :=
    List.Sublist.length_le (List.dropWhile_sublist isWs)
  have h2 : (l.dropWhile isWs).length ≤ l.length :=
    List.Sublist.length_le (List.dropWhile_sublist isWs)
  simp only [List.length_reverse] at h1 ⊢
  omega

theorem trim_subset (l : List Char) : trim l ⊆ l := by
  unfold trim
  intro c hc
  rw [List.mem_reverse] at hc
  have hc2 := (List.dropWhile_sublist isWs).subset hc
  rw [List.mem_reverse] at hc2
  exact (List.dropWhile_sublist isWs).subset hc2

theorem trim_eq_nil_iff (l : List Char) :
    trim l = [] ↔ ∀ c ∈ l, isWs c = true := by
  unfold trim
  rw [List.reverse_eq_nil_iff, List.dropWhile_eq_nil_iff]
  constructor
  · intro h c hc
    have hc2 : c ∈ l.takeWhile isWs ++ l.dropWhile isWs := by
      rw [List.takeWhile_append_dropWhile]
      exact hc
    rcases List.mem_append.mp hc2 with h1 | h1
    · exact List.mem_takeWhile_imp h1
    · exact h c (List.mem_reverse.mpr h1)
  · intro h c hc
    rw [List.mem_reverse] at hc
    exact h c ((List.dropWhile_sublist isWs).subset hc)

theorem trim_eq_self_of_forall (l : List Char)
    (h : ∀ c ∈ l, isWs c = false) : trim l = l := by
  unfold trim
  rw [dropWhile_eq_self_of_forall isWs l h,
    dropWhile_eq_self_of_forall isWs l.reverse
      (fun c hc => h c (List.mem_reverse.mp hc)),
    List.reverse_reverse]

theorem splitWsAux_not_ws :
    ∀ (cs : List Char) (b : Bool) (cur : List Char),
      (∀ c ∈ cur, isWs c = false) →
      ∀ w ∈ splitWsAux b cur cs, ∀ c ∈ w, isWs c = false := by
  intro cs
  induction cs with
  | nil =>
    intro b cur hcur w hw c hc
    simp [splitWsAux] at hw
    subst hw
    exact hcur c (List.mem_reverse.mp hc)
  | cons a rest ih =>
    intro b cur hcur w hw c hc
    by_cases ha : isWs a
    · rw [splitWsAux, if_pos ha] at hw
      cases b with
      | true =>
        rw [if_pos rfl] at hw
        exact ih true [] (by simp) w hw c hc
      | false =>
        rw [if_neg (by simp)] at hw
        rcases List.mem_cons.mp hw with hw | hw
        · subst hw
          exact hcur c (List.mem_reverse.mp hc)
        · exact ih true [] (by simp) w hw c hc
    · rw [splitWsAux, if_neg ha] at hw
      refine ih false (a :: cur) ?_ w hw c hc
      intro d hd
      rcases List.mem_cons.mp hd with hd | hd
      · subst hd
        exact Bool.eq_false_iff.mpr ha
      · exact hcur d hd

theorem splitWs_not_ws (s : List Char) :
    ∀ w ∈ splitWs s, ∀ c ∈ w, isWs c = false :=
  splitWsAux_not_ws s false [] (by simp)

theorem splitWsAux_all_nil :
    ∀ (cs : List Char) (b : Bool), (∀ c ∈ cs, isWs c = true) →
      ∀ w ∈ splitWsAux b [] cs, w = [] := by
  intro cs
  induction cs with
  | nil =>
    intro b _ w hw
    simp [splitWsAux] at hw
    exact hw
  | cons a rest ih =>
    intro b hall w hw
    have ha : isWs a = true := hall a (List.mem_cons_self a rest)
    have hrest : ∀ c ∈ rest, isWs c = true :=
      fun c hc => hall c (List.mem_cons_of_mem a hc)
    rw [splitWsAux, if_pos ha] at hw
    cases b with
    | true =>
      rw [if_pos rfl] at hw
      exact ih true hrest w hw
    | false =>
      rw [if_neg (by simp)] at hw
      rcases List.mem_cons.mp hw with hw | hw
      · simpa using hw
      · exact ih true hrest w hw

theorem splitOnChar_sep_not_mem (sep : Char) :
    ∀ (s : List Char), ∀ w ∈ splitOnChar sep s, sep ∉ w := by
  intro s
  induction s with
  | nil =>
    intro w hw
    simp [splitOnChar] at hw
    simp [hw]
  | cons a rest ih =>
    intro w hw
    by_cases ha : a = sep
    · rw [splitOnChar, if_pos (by simp [ha])] at hw
      rcases List.mem_cons.mp hw with hw | hw
      · simp [hw]
      · exact ih w hw
    · rw [splitOnChar, if_neg (by simp [ha])] at hw
      cases hsp : splitOnChar sep rest with
      | nil =>
        rw [hsp] at hw
        rcases List.mem_cons.mp hw with hw | hw
        · subst hw
          simp [List.mem_singleton]
          intro h
          exact ha h.symm
        · simp at hw
      | cons w0 ws =>
        rw [hsp] at hw
        rcases List.mem_cons.mp hw with hw | hw
        · subst hw
          intro hmem
          rcases List.mem_cons.mp hmem with h | h
          · exact ha h.symm
          · exact ih w0 (hsp ▸ List.mem_cons_self w0 ws) h
        · exact ih w (hsp ▸ List.mem_cons_of_mem w0 hw)

theorem splitOnChar_of_not_mem (sep : Char) :
    ∀ (s : List Char), sep ∉ s → splitOnChar sep s = [s] := by
  intro s
  induction s with
  | nil => intro _; rfl
  | cons a rest ih =>
    intro h
    have ha : ¬a = sep := fun hh => h (hh ▸ List.mem_cons_self a rest)
    have hrest : sep ∉ rest := fun hh => h (List.mem_cons_of_mem a hh)
    rw [splitOnChar, if_neg (by simp [ha]), ih hrest]

theorem intercalate_space_nil : List.intercalate [' '] ([] : List (List Char)) = [] := by
  simp [List.intercalate]

theorem intercalate_space_single (s : List Char) :
    List.intercalate [' '] [s] = s := by
  simp [List.intercalate, List.intersperse]

theorem intercalate_space_cons_cons (s t : List Char) (ls : List (List Char)) :
    List.intercalate [' '] (s :: t :: ls) =
      s ++ [' '] ++ List.intercalate [' '] (t :: ls) := by
  simp [List.intercalate, List.intersperse]

theorem intercalate_space_first (s : List Char) (ls : List (List Char)) :
    ∃ t, List.intercalate [' '] (s :: ls) = s ++ t := by
  cases ls with
  | nil => exact ⟨[], by rw [intercalate_space_single, List.append_nil]⟩
  | cons t ls =>
    exact ⟨[' '] ++ List.intercalate [' '] (t :: ls), by
      rw [intercalate_space_cons_cons, List.append_assoc]⟩

theorem mem_intercalate_space :
    ∀ (ls : List (List Char)) (c : Char), c ∈ List.intercalate [' '] ls →
      c = ' ' ∨ ∃ l ∈ ls, c ∈ l := by
  intro ls
  induction ls with
  | nil =>
    intro c hc
    rw [intercalate_space_nil] at hc
    simp at hc
  | cons s ls ih =>
    intro c hc
    cases ls with
    | nil =>
      rw [intercalate_space_single] at hc
      exact Or.inr ⟨s, List.mem_cons_self s [], hc⟩
    | cons t ls2 =>
      rw [intercalate_space_cons_cons] at hc
      rcases List.mem_append.mp hc with hc | hc
      · rcases List.mem_append.mp hc with hc | hc
        · exact Or.inr ⟨s, List.mem_cons_self s _, hc⟩
        · exact Or.inl (List.mem_singleton.mp hc)
      · rcases ih c hc with h | ⟨l, hl, hcl⟩
        · exact Or.inl h
        · exact Or.inr ⟨l, List.mem_cons_of_mem s hl, hcl⟩

/-! ## chunkLoop invariants -/

theorem chunkLoop_bound (N : Nat) (A : List Char → Prop)
    (hA : ∀ w, A w → ∀ c ∈ w, isWs c = false) :
    ∀ (ws : List (List Char)) (cur : List Char),
      (∀ w ∈ ws, A w) → (cur = [] ∨ cur.length ≤ N + 1 ∨ A cur) →
      ∀ ch ∈ chunkLoop N ws cur, ch.length ≤ N + 1 ∨ A ch := by
  intro ws
  induction ws with
  | nil =>
    intro cur _ hcur ch hch
    rw [chunkLoop] at hch
    by_cases hc : cur.isEmpty
    · rw [if_pos hc] at hch
      simp at hch
    · rw [if_neg hc] at hch
      obtain rfl : ch = trim cur := List.mem_singleton.mp hch
      rcases hcur with rfl | hlen | hcur
      · simp at hc
      · exact Or.inl (le_trans (trim_length_le cur) hlen)
      · rw [trim_eq_self_of_forall cur (hA cur hcur)]
        exact Or.inr hcur
  | cons w ws ih =>
    intro cur hws hcur ch hch
    have hw : A w := hws w (List.mem_cons_self w ws)
    have hws2 : ∀ u ∈ ws, A u := fun u hu => hws u (List.mem_cons_of_mem w hu)
    rw [chunkLoop] at hch
    by_cases hover : N < (cur ++ w).length
    · rw [if_pos hover] at hch
      by_cases hc : cur.isEmpty
      · rw [if_pos hc] at hch
        exact ih w hws2 (Or.inr (Or.inr hw)) ch hch
      · rw [if_neg hc] at hch
        rcases List.mem_cons.mp hch with rfl | hch
        · rcases hcur with rfl | hlen | hcur
          · simp at hc
          · exact Or.inl (le_trans (trim_length_le cur) hlen)
          · rw [trim_eq_self_of_forall cur (hA cur hcur)]
            exact Or.inr hcur
        · exact ih w hws2 (Or.inr (Or.inr hw)) ch hch
    · rw [if_neg hover] at hch
      refine ih (joinWord cur w) hws2 ?_ ch hch
      unfold joinWord
      by_cases hc : cur.isEmpty
      · rw [if_pos hc]
        exact Or.inr (Or.inr hw)
      · rw [if_neg hc]
        refine Or.inr (Or.inl ?_)
        rw [List.length_append] at hover
        simp only [List.length_append, List.length_cons]
        omega

theorem chunkLoop_ne_nil (N : Nat) :
    ∀ (ws : List (List Char)) (cur : List Char),
      (∀ w ∈ ws, ∀ c ∈ w, isWs c = false) →
      (cur = [] ∨ ∃ c ∈ cur, isWs c = false) →
      ∀ ch ∈ chunkLoop N ws cur, ch ≠ [] := by
  intro ws
  induction ws with
  | nil =>
    intro cur _ hcur ch hch
    rw [chunkLoop] at hch
    by_cases hc : cur.isEmpty
    · rw [if_pos hc] at hch
      simp at hch
    · rw [if_neg hc] at hch
      obtain rfl : ch = trim cur := List.mem_singleton.mp hch
      rcases hcur with rfl | ⟨c, hcmem, hcws⟩
      · simp at hc
      · intro htrim
        have hws := (trim_eq_nil_iff cur).mp htrim c hcmem
        simp [hws] at hcws
  | cons w ws ih =>
    intro cur hws hcur ch hch
    have hw : ∀ c ∈ w, isWs c = false :=
      fun c hc => hws w (List.mem_cons_self w ws) c hc
    have hws2 : ∀ u ∈ ws, ∀ c ∈ u, isWs c = false :=
      fun u hu => hws u (List.mem_cons_of_mem w hu)
    have hwcur : w = [] ∨ ∃ c ∈ w, isWs c = false := by
      cases w with
      | nil => exact Or.inl rfl
      | cons a t =>
        exact Or.inr ⟨a, List.mem_cons_self a t, hw a (List.mem_cons_self a t)⟩
    rw [chunkLoop] at hch
    by_cases hover : N < (cur ++ w).length
    · rw [if_pos hover] at hch
      by_cases hc : cur.isEmpty
      · rw [if_pos hc] at hch
        exact ih w hws2 hwcur ch hch
      · rw [if_neg hc] at hch
        rcases List.mem_cons.mp hch with rfl | hch
        · rcases hcur with rfl | ⟨c, hcmem, hcws⟩
          · simp at hc
          · intro htrim
            have hws3 := (trim_eq_nil_iff cur).mp htrim c hcmem
            simp [hws3] at hcws
        · exact ih w hws2 hwcur ch hch
    · rw [if_neg hover] at hch
      refine ih (joinWord cur w) hws2 ?_ ch hch
      unfold joinWord
      by_cases hc : cur.isEmpty
      · rw [if_pos hc]
        exact hwcur
      · rw [if_neg hc]
        rcases hcur with rfl | ⟨c, hcmem, hcws⟩
        · simp at hc
        · exact Or.inr ⟨c, List.mem_append.mpr (Or.inl hcmem), hcws⟩

theorem chunkLoop_all_nil (N : Nat) :
    ∀ (ws : List (List Char)), (∀ w ∈ ws, w = []) →
      chunkLoop N ws [] = [] := by
  intro ws
  induction ws with
  | nil => intro _; rfl
  | cons w ws ih =>
    intro hall
    have hw : w = [] := hall w (List.mem_cons_self w ws)
    subst hw
    rw [chunkLoop, if_neg (by simp)]
    have : joinWord [] [] = [] := rfl
    rw [this]
    exact ih (fun u hu => hall u (List.mem_cons_of_mem [] hu))

/-! ## C1: chunk length bound (corrected) -/

/-- Counterexample to C1 as stated: with chunk size 3 the text `"ab c"`
produces the single chunk `"ab c"`, which is 4 characters long — more than
the chunk size — yet consists of two words, not one oversized word. The
overflow test `(currentChunk + word).length > chunkSize` ignores the joining
space. -/
theorem chunkText_length_counterexample :
    ¬(∀ ch ∈ chunkText "ab c".data 3,
        ch.length ≤ 3 ∨ (3 < ch.length ∧ ch ∈ splitWs "ab c".data)) ∧
    chunkText "ab c".data 3 = ["ab c".data] := by
  exact ⟨by decide, by decide⟩

/-- Claim C1 (amended): for positive `chunkSize`, every chunk produced by
`chunkText` has length at most `chunkSize + 1` — one more than the claimed
bound, because the overflow test ignores the space that rejoins the words —
except that a chunk longer than that is a single word of the input (an
element of the whitespace split) whose own length exceeds `chunkSize + 1`. -/
theorem chunkText_length_amended (text : List Char) (chunkSize : Nat)
    (_hpos : 0 < chunkSize) :
    ∀ ch ∈ chunkText text chunkSize,
      ch.length ≤ chunkSize + 1 ∨
        (chunkSize + 1 < ch.length ∧ ch ∈ splitWs text) := by
  intro ch hch
  have h := chunkLoop_bound chunkSize (fun w => w ∈ splitWs text)
    (fun w hw => splitWs_not_ws text w hw) (splitWs text) []
    (fun w hw => hw) (Or.inl rfl) ch hch
  rcases h with h | h
  · exact Or.inl h
  · by_cases hlen : ch.length ≤ chunkSize + 1
    · exact Or.inl hlen
    · exact Or.inr ⟨by omega, h⟩

/-- Witness for C1 (amended): chunking `"hello world again"` at size 11. -/
theorem chunkText_length_amended_witness :
    0 < 11 ∧ ∀ ch ∈ chunkText "hello world again".data 11,
      ch.length ≤ 11 + 1 ∨
        (11 + 1 < ch.length ∧ ch ∈ splitWs "hello world again".data) :=
  ⟨by decide, chunkText_length_amended "hello world again".data 11 (by decide)⟩

/-! ## C9: chunks are never empty -/

/-- Claim C9: every chunk `chunkText` returns is a non-empty string, and an
input that is empty or all whitespace yields the empty chunk list. -/
theorem chunkText_no_empty_chunk (text : List Char) (chunkSize : Nat) :
    (∀ ch ∈ chunkText text chunkSize, ch ≠ []) ∧
    ((∀ c ∈ text, isWs c = true) → chunkText text chunkSize = []) := by
  constructor
  · exact chunkLoop_ne_nil chunkSize (splitWs text) []
      (splitWs_not_ws text) (Or.inl rfl)
  · intro hws
    exact chunkLoop_all_nil chunkSize (splitWs text)
      (splitWsAux_all_nil text false hws)

/-- Witness for C9: a spaced text yields non-empty chunks; an all-whitespace
text yields no chunks at all. -/
theorem chunkText_no_empty_chunk_witness :
    (∀ ch ∈ chunkText " a  b ".data 5, ch ≠ []) ∧
    chunkText "   ".data 7 = [] :=
  ⟨(chunkText_no_empty_chunk " a  b ".data 5).1,
    (chunkText_no_empty_chunk "   ".data 7).2 (by decide)⟩

/-! ## C7: summary length bound and idempotence -/

theorem mem_generateSummary (t : List Char) (c : Char)
    (hc : c ∈ generateSummary t) :
    c = ' ' ∨ c = '.' ∨ ∃ l ∈ splitOnChar '\n' t, c ∈ l := by
  unfold generateSummary at hc
  rcases List.mem_append.mp hc with hc | hc
  · have hcS : c ∈ summaryJoined t := List.take_subset 200 _ hc
    unfold summaryJoined at hcS
    rcases mem_intercalate_space _ c hcS with h | ⟨l, hl, hcl⟩
    · exact Or.inl h
    · refine Or.inr (Or.inr ⟨l, ?_, hcl⟩)
      have h1 := List.take_subset 5 _ hl
      exact (List.mem_filter.mp h1).1
  · by_cases h : 200 < (summaryJoined t).length
    · rw [if_pos h] at hc
      simp at hc
      exact Or.inr (Or.inl hc)
    · rw [if_neg h] at hc
      simp at hc

theorem generateSummary_eq_self (s : List Char) (hlen : s.length ≤ 200)
    (hnl : '\n' ∉ s) (hex : ∃ c ∈ s, isWs c = false) :
    generateSummary s = s := by
  obtain ⟨c0, hc0, hc0ws⟩ := hex
  have hpred : (!(trim s).isEmpty) = true := by
    cases hts : trim s with
    | nil =>
      have := (trim_eq_nil_iff s).mp hts c0 hc0
      simp [this] at hc0ws
    | cons a tl => simp [hts]
  have hlines : summaryLines s = [s] := by
    unfold summaryLines
    rw [splitOnChar_of_not_mem '\n' s hnl]
    simp [List.filter, hpred]
  unfold generateSummary summaryJoined
  rw [hlines, show ([s].take 5) = [s] from rfl, intercalate_space_single,
    List.take_of_length_le hlen, if_neg (by omega), List.append_nil]

/-- Claim C7: `generateSummary` never returns more than 203 characters
(200 plus the 3-character ellipsis), and applying it again to an output of at
most 200 characters returns that output unchanged. -/
theorem generateSummary_bound_idempotent (text : List Char) :
    (generateSummary text).length ≤ 203 ∧
    ((generateSummary text).length ≤ 200 →
      generateSummary (generateSummary text) = generateSummary text) := by
  constructor
  · unfold generateSummary
    have htake := List.length_take_le 200 (summaryJoined text)
    by_cases h : 200 < (summaryJoined text).length
    · rw [if_pos h, List.length_append]
      simp only [List.length_cons, List.length_nil]
      omega
    · rw [if_neg h, List.append_nil]
      omega
  · intro hle
    have hnl : '\n' ∉ generateSummary text := by
      intro hmem
      rcases mem_generateSummary text '\n' hmem with h | h | ⟨l, hl, hcl⟩
      · exact absurd h (by decide)
      · exact absurd h (by decide)
      · exact splitOnChar_sep_not_mem '\n' text l hl hcl
    by_cases hnil : generateSummary text = []
    · rw [hnil]
      decide
    · have hSle : (summaryJoined text).length ≤ 200 := by
        by_contra hgt
        push_neg at hgt
        unfold generateSummary at hle
        rw [if_pos hgt, List.length_append, List.length_take] at hle
        simp only [List.length_cons, List.length_nil] at hle
        omega
      have hgen : generateSummary text = summaryJoined text := by
        unfold generateSummary
        rw [if_neg (by omega), List.append_nil, List.take_of_length_le hSle]
      have hex : ∃ c ∈ generateSummary text, isWs c = false := by
        cases hT : (summaryLines text).take 5 with
        | nil =>
          exfalso
          apply hnil
          rw [hgen]
          unfold summaryJoined
          rw [hT, intercalate_space_nil]
        | cons l ls =>
          have hlmem : l ∈ summaryLines text := by
            refine List.take_subset 5 _ ?_
            rw [hT]
            exact List.mem_cons_self l ls
          have hlpred : (!(trim l).isEmpty) = true :=
            (List.mem_filter.mp hlmem).2
          have htrim_ne : trim l ≠ [] := by
            intro h
            rw [h] at hlpred
            simp at hlpred
          have hexl : ∃ c ∈ l, isWs c = false := by
            by_contra hall
            push_neg at hall
            refine htrim_ne ((trim_eq_nil_iff l).mpr ?_)
            intro c hc
            have h2 := hall c hc
            cases hval : isWs c with
            | true => rfl
            | false => exact absurd hval h2
          obtain ⟨c0, hc0, hws0⟩ := hexl
          obtain ⟨tail, htail⟩ := intercalate_space_first l ls
          refine ⟨c0, ?_, hws0⟩
          rw [hgen]
          unfold summaryJoined
          rw [hT, htail]
          exact List.mem_append.mpr (Or.inl hc0)
      exact generateSummary_eq_self (generateSummary text) hle hnl hex

/-- Witness for C7: the summary of `"Hello\nWorld"` is short, and
re-summarizing it is the identity. -/
theorem generateSummary_bound_idempotent_witness :
    (generateSummary "Hello\nWorld".data).length ≤ 203 ∧
    generateSummary (generateSummary "Hello\nWorld".data) =
      generateSummary "Hello\nWorld".data :=
  ⟨(generateSummary_bound_idempotent "Hello\nWorld".data).1,
    (generateSummary_bound_idempotent "Hello\nWorld".data).2 (by decide)⟩

end Spec2Proof
